import Mathlib

/-!
Shallow embedding of the `googleauth` service registry
(`internal/googleauth/service.go`): a fixed table mapping service
identifiers to OAuth scope metadata, with parsing, enumeration,
filtering, scope-union resolution and a markdown renderer.

Go strings are modelled as lists of byte values (`List Nat`); all
registry data is ASCII, so `strings.ToLower` and `strings.TrimSpace`
are modelled on their ASCII/Latin-1 fragment, and `fmt`'s `%q` verb as
plain double-quoting (exact for printable ASCII without escapes).
Go's `sort.Strings` sorts bytewise lexicographically; it is modelled
by insertion sort over the same comparison, which agrees with any
correct sort on the duplicate-free key lists it is applied to.
A Go `(T, error)` return is modelled as `Except GoStr T`, the error
being its message string.
-/

/-- A Go string, as its list of byte values. -/
abbrev GoStr := List Nat

/-- Byte-value list of a (ASCII) Lean string literal. -/
def strBytes (s : String) : GoStr :=
  s.data.map Char.toNat

/-- Go `<` on strings: bytewise lexicographic comparison. -/
def strLtB : GoStr → GoStr → Bool
  | [], [] => false
  | [], _ :: _ => true
  | _ :: _, [] => false
  | a :: as, b :: bs => if a < b then true else if b < a then false else strLtB as bs

/-- ASCII fragment of Go `unicode.ToLower` on one byte. -/
def lowerB (b : Nat) : Nat :=
  if 65 ≤ b ∧ b ≤ 90 then b + 32 else b

/-- Latin-1 fragment of Go `unicode.IsSpace` on one byte. -/
def isSpaceB (b : Nat) : Bool :=
  b == 9 || b == 10 || b == 11 || b == 12 || b == 13 || b == 32 || b == 133 || b == 160

/-- Go `strings.ToLower` (ASCII fragment). -/
def goToLower (s : GoStr) : GoStr :=
  s.map lowerB

/-- Go `strings.TrimSpace` (ASCII/Latin-1 fragment): drop leading and
trailing space bytes. -/
def trimSpace (s : GoStr) : GoStr :=
  ((s.dropWhile isSpaceB).reverse.dropWhile isSpaceB).reverse

/-- Go `strings.Join`. -/
def goJoin (parts : List GoStr) (sep : GoStr) : GoStr :=
  List.intercalate sep parts

/-- `type Service string`. -/
abbrev Service := GoStr

/-- `type serviceInfo struct { scopes []string; user bool; apis []string; note string }`. -/
structure serviceInfo where
  scopes : List GoStr
  user : Bool
  apis : List GoStr
  note : GoStr
deriving DecidableEq

def ServiceGmail : Service := strBytes "gmail"
def ServiceCalendar : Service := strBytes "calendar"
def ServiceDrive : Service := strBytes "drive"
def ServiceDocs : Service := strBytes "docs"
def ServiceContacts : Service := strBytes "contacts"
def ServiceTasks : Service := strBytes "tasks"
def ServicePeople : Service := strBytes "people"
def ServiceSheets : Service := strBytes "sheets"
def ServiceGroups : Service := strBytes "groups"
def ServiceKeep : Service := strBytes "keep"

def scopeOpenID : GoStr := strBytes "openid"
def scopeEmail : GoStr := strBytes "email"
def scopeUserinfoEmail : GoStr := strBytes "https://www.googleapis.com/auth/userinfo.email"

/-- `errUnknownService = errors.New("unknown service")`, as its message. -/
def errUnknownService : GoStr := strBytes "unknown service"

/-- `serviceOrder`: the fixed presentation order. -/
def serviceOrder : List Service :=
  [ServiceGmail, ServiceCalendar, ServiceDrive, ServiceDocs, ServiceContacts,
   ServiceTasks, ServiceSheets, ServicePeople, ServiceGroups, ServiceKeep]

/-- `serviceInfoByService`: the registry map, as an association list in
the map literal's entry order (keys are distinct, so this is a faithful
model of the Go map). -/
def serviceInfoByService : List (Service × serviceInfo) :=
  [(ServiceGmail,
    { scopes := [strBytes "https://mail.google.com/",
                 strBytes "https://www.googleapis.com/auth/gmail.settings.basic"],
      user := true, apis := [strBytes "Gmail API"], note := [] }),
   (ServiceCalendar,
    { scopes := [strBytes "https://www.googleapis.com/auth/calendar"],
      user := true, apis := [strBytes "Calendar API"], note := [] }),
   (ServiceDrive,
    { scopes := [strBytes "https://www.googleapis.com/auth/drive"],
      user := true, apis := [strBytes "Drive API"], note := [] }),
   (ServiceDocs,
    { scopes := [strBytes "https://www.googleapis.com/auth/drive",
                 strBytes "https://www.googleapis.com/auth/documents"],
      user := true, apis := [strBytes "Docs API", strBytes "Drive API"],
      note := strBytes "Export/copy/create via Drive" }),
   (ServiceContacts,
    { scopes := [strBytes "https://www.googleapis.com/auth/contacts",
                 strBytes "https://www.googleapis.com/auth/contacts.other.readonly",
                 strBytes "https://www.googleapis.com/auth/directory.readonly"],
      user := true, apis := [strBytes "People API"],
      note := strBytes "Contacts + other contacts + directory" }),
   (ServiceTasks,
    { scopes := [strBytes "https://www.googleapis.com/auth/tasks"],
      user := true, apis := [strBytes "Tasks API"], note := [] }),
   (ServicePeople,
    { scopes := [strBytes "profile"],
      user := true, apis := [strBytes "People API"],
      note := strBytes "OIDC profile scope" }),
   (ServiceSheets,
    { scopes := [strBytes "https://www.googleapis.com/auth/spreadsheets"],
      user := true, apis := [strBytes "Sheets API", strBytes "Drive API"],
      note := strBytes "Export via Drive" }),
   (ServiceGroups,
    { scopes := [strBytes "https://www.googleapis.com/auth/cloud-identity.groups.readonly"],
      user := false, apis := [strBytes "Cloud Identity API"],
      note := strBytes "Workspace only" }),
   (ServiceKeep,
    { scopes := [strBytes "https://www.googleapis.com/auth/keep"],
      user := false, apis := [strBytes "Keep API"],
      note := strBytes "Workspace only; service account" })]

/-- Go map lookup `serviceInfoByService[s]`. -/
def lookupInfo (s : Service) : Option serviceInfo :=
  (serviceInfoByService.find? (fun p => decide (p.1 = s))).map (fun p => p.2)

/-- `_, ok := serviceInfoByService[s]`. -/
def registeredB (s : Service) : Bool :=
  (lookupInfo s).isSome

/-- `serviceNames(services, sep)`: the identifiers joined by `sep`. -/
def serviceNames (services : List Service) (sep : GoStr) : GoStr :=
  goJoin services sep

/-- `AllServices()`: a copy of the presentation order. -/
def AllServices : List Service :=
  serviceOrder

/-- Lowercase hex digit, as in `strconv`'s `lowerhex`. -/
def hexDigit (n : Nat) : Nat :=
  if n < 10 then 48 + n else 87 + n

/-- One code point's rendering inside `strconv.Quote` (Latin-1
fragment): backslash-escape `"` and `\`, the named escapes for the
seven C0 controls that have one, printable runes verbatim, `\xhh` for
the remaining ASCII bytes, and `\u00hh` for the non-printable Latin-1
code points (128–160 and the soft hyphen 173). -/
def quoteByte (b : Nat) : GoStr :=
  if b = 34 then [92, 34]
  else if b = 92 then [92, 92]
  else if b = 7 then [92, 97]
  else if b = 8 then [92, 98]
  else if b = 12 then [92, 102]
  else if b = 10 then [92, 110]
  else if b = 13 then [92, 114]
  else if b = 9 then [92, 116]
  else if b = 11 then [92, 118]
  else if 32 ≤ b ∧ b ≤ 126 then [b]
  else if b ≤ 127 then [92, 120, hexDigit (b / 16), hexDigit (b % 16)]
  else if b ≤ 160 ∨ b = 173 then [92, 117, 48, 48, hexDigit (b / 16), hexDigit (b % 16)]
  else [b]

/-- `%q` applied to a string: `strconv.Quote` (Latin-1 fragment) —
surrounding double quotes with each code point escaped as Go does. -/
def goQuote (s : GoStr) : GoStr :=
  [34] ++ (s.map quoteByte).flatten ++ [34]

/-- `ParseService`: canonicalize (trim + lowercase) and check registry
membership; on failure the error message is
`unknown service "<original>" (expected a|b|...)`. -/
def ParseService (s : GoStr) : Except GoStr Service :=
  let parsed := goToLower (trimSpace s)
  if registeredB parsed then .ok parsed
  else .error (errUnknownService ++ strBytes " " ++ goQuote s ++
               strBytes " (expected " ++ serviceNames AllServices (strBytes "|") ++ strBytes ")")

/-- `filteredServices(include)`: the presentation order restricted to
identifiers whose record passes `include` (identifiers without a record
are skipped; the `include == nil` case is never exercised by callers). -/
def filteredServices (incl : serviceInfo → Bool) : List Service :=
  serviceOrder.filter (fun svc =>
    match lookupInfo svc with
    | some info => incl info
    | none => false)

/-- `UserServices()`: services whose record has `user == true`. -/
def UserServices : List Service :=
  filteredServices (fun info => info.user)

/-- `Scopes(service)`: the record's scopes, or the bare
`errUnknownService` sentinel. -/
def Scopes (service : Service) : Except GoStr (List GoStr) :=
  match lookupInfo service with
  | none => .error errUnknownService
  | some info => .ok info.scopes

/-- Go `set[s] = struct{}{}`: the key set of a Go map, as a
duplicate-free list (its order is irrelevant: every use sorts it). -/
def setInsert (s : GoStr) (set : List GoStr) : List GoStr :=
  if s ∈ set then set else s :: set

/-- Insert into a `strLtB`-sorted list, keeping it sorted. -/
def insertStr (x : GoStr) : List GoStr → List GoStr
  | [] => [x]
  | y :: ys => if strLtB x y then x :: y :: ys else y :: insertStr x ys

/-- `sort.Strings`: bytewise-lexicographic ascending sort (insertion
sort gives the same result as Go's sort on the duplicate-free lists it
is applied to). -/
def sortStrings (l : List GoStr) : List GoStr :=
  l.foldr insertStr []

/-- The scope-accumulation loop of `ScopesForServices`: resolve each
service, folding its scopes into the set; stop at the first error. -/
def gatherScopes : List Service → List GoStr → Except GoStr (List GoStr)
  | [], set => .ok set
  | svc :: rest, set =>
    match Scopes svc with
    | .error e => .error e
    | .ok scopes => gatherScopes rest (scopes.foldl (fun st s => setInsert s st) set)

/-- `ScopesForServices`: union of all resolved scopes, sorted. -/
def ScopesForServices (services : List Service) : Except GoStr (List GoStr) :=
  match gatherScopes services [] with
  | .error e => .error e
  | .ok set => .ok (sortStrings set)

/-- `mergeScopes(scopes, extras)`: set union skipping empty strings,
then sorted. -/
def mergeScopes (scopes extras : List GoStr) : List GoStr :=
  let set := scopes.foldl (fun st s => if s = [] then st else setInsert s st) []
  let set := extras.foldl (fun st s => if s = [] then st else setInsert s st) set
  sortStrings set

/-- `ScopesForManage`: the service union merged with the three fixed
identity scopes. -/
def ScopesForManage (services : List Service) : Except GoStr (List GoStr) :=
  match ScopesForServices services with
  | .error e => .error e
  | .ok scopes => .ok (mergeScopes scopes [scopeOpenID, scopeEmail, scopeUserinfoEmail])

/-- `type ServiceInfo struct`: the public projection. -/
structure ServiceInfo where
  Service : Service
  User : Bool
  Scopes : List GoStr
  APIs : List GoStr
  Note : GoStr
deriving DecidableEq

/-- `ServicesInfo()`: one view per identifier in presentation order,
skipping identifiers without a record. -/
def ServicesInfo : List ServiceInfo :=
  serviceOrder.filterMap (fun svc =>
    (lookupInfo svc).map (fun info =>
      { Service := svc, User := info.user, Scopes := info.scopes,
        APIs := info.apis, Note := info.note }))

/-- `markdownScopes`: each scope backtick-quoted, joined by `<br>`. -/
def markdownScopes (scopes : List GoStr) : GoStr :=
  if scopes = [] then []
  else goJoin (scopes.map (fun scope => strBytes "`" ++ scope ++ strBytes "`")) (strBytes "<br>")

/-- One data row of the markdown table, as written by the loop body of
`ServicesMarkdown`. -/
def markdownRow (info : ServiceInfo) : GoStr :=
  strBytes "| " ++ info.Service ++ strBytes " | " ++
  (if info.User then strBytes "yes" else strBytes "no") ++ strBytes " | " ++
  goJoin info.APIs (strBytes ", ") ++ strBytes " | " ++
  markdownScopes info.Scopes ++ strBytes " | " ++
  info.Note ++ strBytes " |\n"

/-- `ServicesMarkdown`: empty input gives the empty string; otherwise a
header followed by one row per entry, accumulated left to right as by
`strings.Builder`. -/
def ServicesMarkdown (infos : List ServiceInfo) : GoStr :=
  if infos = [] then []
  else
    infos.foldl (fun b info => b ++ markdownRow info)
      (strBytes "| Service | User | APIs | Scopes | Notes |\n" ++
       strBytes "| --- | --- | --- | --- | --- |\n")

deriving instance DecidableEq for Except

/-! ### Order facts for the bytewise comparison -/

/-- The strict order underlying `sort.Strings`, as a proposition. -/
def StrLt (a b : GoStr) : Prop := strLtB a b = true

instance (a b : GoStr) : Decidable (StrLt a b) := by unfold StrLt; infer_instance

theorem strLtB_irrefl : ∀ s : GoStr, strLtB s s = false
  | [] => rfl
  | _ :: as => by simp [strLtB, strLtB_irrefl as]

theorem strLtB_asymm : ∀ {s t : GoStr}, strLtB s t = true → strLtB t s = false := by
  intro s
  induction s with
  | nil => intro t; cases t <;> simp [strLtB]
  | cons a as ih =>
    intro t
    cases t with
    | nil => simp [strLtB]
    | cons b bs =>
      simp only [strLtB]
      by_cases hab : a < b
      · intro _
        rw [if_neg (Nat.lt_asymm hab), if_pos hab]
      · by_cases hba : b < a
        · intro h
          rw [if_neg hab, if_pos hba] at h
          exact absurd h (by simp)
        · intro h
          rw [if_neg hab, if_neg hba] at h
          rw [if_neg hba, if_neg hab]
          exact ih h

theorem strLtB_trans : ∀ {s t u : GoStr},
    strLtB s t = true → strLtB t u = true → strLtB s u = true := by
  intro s
  induction s with
  | nil =>
    intro t u h1 h2
    cases t with
    | nil => exact h2
    | cons b bs =>
      cases u with
      | nil => simp [strLtB] at h2
      | cons c cs => rfl
  | cons a as ih =>
    intro t u h1 h2
    cases t with
    | nil => simp [strLtB] at h1
    | cons b bs =>
      cases u with
      | nil => simp [strLtB] at h2
      | cons c cs =>
        simp only [strLtB] at h1 h2 ⊢
        by_cases hab : a < b <;> by_cases hbc : b < c
        · rw [if_pos (Nat.lt_trans hab hbc)]
        · rw [if_neg hbc] at h2
          by_cases hcb : c < b
          · simp [if_pos hcb] at h2
          · have hbc' : b = c := Nat.le_antisymm (Nat.le_of_not_lt hcb) (Nat.le_of_not_lt hbc)
            rw [if_pos (hbc' ▸ hab)]
        · rw [if_neg hab] at h1
          by_cases hba : b < a
          · simp [if_pos hba] at h1
          · have hab' : a = b := Nat.le_antisymm (Nat.le_of_not_lt hba) (Nat.le_of_not_lt hab)
            rw [if_pos (hab' ▸ hbc)]
        · rw [if_neg hab] at h1
          rw [if_neg hbc] at h2
          by_cases hba : b < a
          · simp [if_pos hba] at h1
          · by_cases hcb : c < b
            · simp [if_pos hcb] at h2
            · rw [if_neg hba] at h1
              rw [if_neg hcb] at h2
              have hab' : a = b := Nat.le_antisymm (Nat.le_of_not_lt hba) (Nat.le_of_not_lt hab)
              have hbc' : b = c := Nat.le_antisymm (Nat.le_of_not_lt hcb) (Nat.le_of_not_lt hbc)
              subst hab'
              subst hbc'
              rw [if_neg (Nat.lt_irrefl a), if_neg (Nat.lt_irrefl a)]
              exact ih h1 h2

theorem strLtB_conn : ∀ {s t : GoStr},
    strLtB s t = false → strLtB t s = false → s = t := by
  intro s
  induction s with
  | nil =>
    intro t h1 _
    cases t with
    | nil => rfl
    | cons b bs => simp [strLtB] at h1
  | cons a as ih =>
    intro t h1 h2
    cases t with
    | nil => simp [strLtB] at h2
    | cons b bs =>
      simp only [strLtB] at h1 h2
      by_cases hab : a < b
      · simp [if_pos hab] at h1
      · by_cases hba : b < a
        · simp [if_pos hba] at h2
        · rw [if_neg hab, if_neg hba] at h1
          rw [if_neg hba, if_neg hab] at h2
          have hab' : a = b := Nat.le_antisymm (Nat.le_of_not_lt hba) (Nat.le_of_not_lt hab)
          rw [hab', ih h1 h2]

/-! ### Set-insertion and sorting lemmas -/

theorem mem_setInsert {a s : GoStr} {set : List GoStr} :
    a ∈ setInsert s set ↔ a = s ∨ a ∈ set := by
  unfold setInsert
  split
  · constructor
    · exact Or.inr
    · rintro (rfl | ha)
      · assumption
      · assumption
  · simp [List.mem_cons]

theorem nodup_setInsert {s : GoStr} {set : List GoStr} (h : set.Nodup) :
    (setInsert s set).Nodup := by
  unfold setInsert
  split
  · exact h
  · exact List.Nodup.cons (by assumption) h

theorem mem_insertStr {a x : GoStr} : ∀ {l : List GoStr},
    a ∈ insertStr x l ↔ a = x ∨ a ∈ l := by
  intro l
  induction l with
  | nil => simp [insertStr]
  | cons y ys ih =>
    simp only [insertStr]
    split
    · simp [List.mem_cons]
    · simp only [List.mem_cons, ih]
      tauto

theorem pairwise_insertStr {x : GoStr} : ∀ {l : List GoStr},
    l.Pairwise StrLt → x ∉ l → (insertStr x l).Pairwise StrLt := by
  intro l
  induction l with
  | nil => intro _ _; simp [insertStr]
  | cons y ys ih =>
    intro hs hx
    rcases List.pairwise_cons.mp hs with ⟨hy, hys⟩
    simp only [insertStr]
    split
    · rename_i hxy
      refine List.pairwise_cons.mpr ⟨?_, hs⟩
      intro b hb
      rcases List.mem_cons.mp hb with rfl | hb
      · exact hxy
      · exact strLtB_trans hxy (hy b hb)
    · rename_i hxy
      have hxney : x ≠ y := fun h => hx (h ▸ List.mem_cons_self y ys)
      have hyx : StrLt y x := by
        rcases h : strLtB y x with _ | _
        · exact absurd (strLtB_conn (by simpa using hxy) h) hxney
        · exact h
      refine List.pairwise_cons.mpr ⟨?_, ih hys (fun h => hx (List.mem_cons_of_mem y h))⟩
      intro b hb
      rcases mem_insertStr.mp hb with rfl | hb
      · exact hyx
      · exact hy b hb

theorem mem_sortStrings {a : GoStr} : ∀ {l : List GoStr},
    a ∈ sortStrings l ↔ a ∈ l := by
  intro l
  induction l with
  | nil => simp [sortStrings]
  | cons x xs ih =>
    show a ∈ insertStr x (sortStrings xs) ↔ _
    rw [mem_insertStr]
    simp [List.mem_cons, ih]

theorem pairwise_sortStrings : ∀ {l : List GoStr},
    l.Nodup → (sortStrings l).Pairwise StrLt := by
  intro l
  induction l with
  | nil => intro _; simp [sortStrings]
  | cons x xs ih =>
    intro h
    rcases List.nodup_cons.mp h with ⟨hx, hxs⟩
    show (insertStr x (sortStrings xs)).Pairwise StrLt
    exact pairwise_insertStr (ih hxs) (fun hmem => hx (mem_sortStrings.mp hmem))

theorem pairwise_strLt_nodup {l : List GoStr} (h : l.Pairwise StrLt) : l.Nodup :=
  h.imp (fun hab => by
    intro heq
    subst heq
    exact absurd hab (by simp [StrLt, strLtB_irrefl]))

/-- Two strictly sorted lists with the same members are equal. -/
theorem sorted_strLt_ext : ∀ {l₁ l₂ : List GoStr},
    l₁.Pairwise StrLt → l₂.Pairwise StrLt → (∀ a, a ∈ l₁ ↔ a ∈ l₂) → l₁ = l₂ := by
  intro l₁
  induction l₁ with
  | nil =>
    intro l₂ _ _ hmem
    cases l₂ with
    | nil => rfl
    | cons y ys => exact absurd ((hmem y).mpr (List.mem_cons_self y ys)) (List.not_mem_nil y)
  | cons x xs ih =>
    intro l₂ h₁ h₂ hmem
    cases l₂ with
    | nil => exact absurd ((hmem x).mp (List.mem_cons_self x xs)) (List.not_mem_nil x)
    | cons y ys =>
      rcases List.pairwise_cons.mp h₁ with ⟨hx, hxs⟩
      rcases List.pairwise_cons.mp h₂ with ⟨hy, hys⟩
      have hxy : x = y := by
        rcases List.mem_cons.mp ((hmem x).mp (List.mem_cons_self x xs)) with h | h
        · exact h
        · rcases List.mem_cons.mp ((hmem y).mpr (List.mem_cons_self y ys)) with h' | h'
          · exact h'.symm
          · have := strLtB_asymm (hy x h)
            rw [hx y h'] at this
            cases this
      subst hxy
      have htail : ∀ a, a ∈ xs ↔ a ∈ ys := by
        intro a
        constructor
        · intro ha
          rcases List.mem_cons.mp ((hmem a).mp (List.mem_cons_of_mem x ha)) with rfl | h
          · exact absurd (hx a ha) (by simp [StrLt, strLtB_irrefl])
          · exact h
        · intro ha
          rcases List.mem_cons.mp ((hmem a).mpr (List.mem_cons_of_mem x ha)) with rfl | h
          · exact absurd (hy a ha) (by simp [StrLt, strLtB_irrefl])
          · exact h
      rw [ih hxs hys htail]

/-! ### Accumulation lemmas for the scope union -/

theorem mem_foldl_setInsert {a : GoStr} : ∀ {scopes st : List GoStr},
    a ∈ scopes.foldl (fun st s => setInsert s st) st ↔ a ∈ st ∨ a ∈ scopes := by
  intro scopes
  induction scopes with
  | nil => intro st; simp
  | cons x xs ih =>
    intro st
    rw [List.foldl_cons, ih, mem_setInsert]
    simp only [List.mem_cons]
    tauto

theorem nodup_foldl_setInsert : ∀ {scopes st : List GoStr},
    st.Nodup → (scopes.foldl (fun st s => setInsert s st) st).Nodup := by
  intro scopes
  induction scopes with
  | nil => intro st h; exact h
  | cons x xs ih =>
    intro st h
    rw [List.foldl_cons]
    exact ih (nodup_setInsert h)

theorem mem_foldl_mergeInsert {a : GoStr} : ∀ {l st : List GoStr},
    a ∈ l.foldl (fun st s => if s = [] then st else setInsert s st) st ↔
      a ∈ st ∨ (a ∈ l ∧ a ≠ []) := by
  intro l
  induction l with
  | nil => intro st; simp
  | cons x xs ih =>
    intro st
    rw [List.foldl_cons]
    by_cases hx : x = []
    · rw [if_pos hx, ih]
      subst hx
      simp only [List.mem_cons]
      constructor
      · rintro (h | ⟨h, hne⟩)
        · exact .inl h
        · exact .inr ⟨.inr h, hne⟩
      · rintro (h | ⟨rfl | h, hne⟩)
        · exact .inl h
        · exact absurd rfl hne
        · exact .inr ⟨h, hne⟩
    · rw [if_neg hx, ih, mem_setInsert]
      simp only [List.mem_cons]
      constructor
      · rintro ((rfl | h) | ⟨h, hne⟩)
        · exact .inr ⟨.inl rfl, hx⟩
        · exact .inl h
        · exact .inr ⟨.inr h, hne⟩
      · rintro (h | ⟨rfl | h, hne⟩)
        · exact .inl (.inr h)
        · exact .inl (.inl rfl)
        · exact .inr ⟨h, hne⟩

theorem nodup_foldl_mergeInsert : ∀ {l st : List GoStr},
    st.Nodup → (l.foldl (fun st s => if s = [] then st else setInsert s st) st).Nodup := by
  intro l
  induction l with
  | nil => intro st h; exact h
  | cons x xs ih =>
    intro st h
    rw [List.foldl_cons]
    split
    · exact ih h
    · exact ih (nodup_setInsert h)

theorem scopes_unregistered {s : Service} (h : registeredB s = false) :
    Scopes s = .error errUnknownService := by
  have hnone : lookupInfo s = none := by
    rcases hl : lookupInfo s with _ | info
    · rfl
    · rw [registeredB, hl] at h
      simp at h
  unfold Scopes
  rw [hnone]

theorem lookupInfo_mem {s : Service} {info : serviceInfo} (h : lookupInfo s = some info) :
    ∃ p ∈ serviceInfoByService, p.1 = s ∧ p.2 = info := by
  unfold lookupInfo at h
  rcases hf : serviceInfoByService.find? (fun p => decide (p.1 = s)) with _ | p
  · rw [hf] at h
    cases h
  · rw [hf] at h
    have hp := List.find?_some hf
    have hmem := List.mem_of_find?_eq_some hf
    refine ⟨p, hmem, of_decide_eq_true hp, ?_⟩
    simpa using h

theorem gatherScopes_cons (svc : Service) (rest : List Service) (set : List GoStr) :
    gatherScopes (svc :: rest) set =
      match Scopes svc with
      | Except.error e => Except.error e
      | Except.ok scopes =>
          gatherScopes rest (scopes.foldl (fun st s => setInsert s st) set) := rfl

theorem gatherScopes_ok : ∀ (services : List Service) (set : List GoStr),
    (∀ x ∈ services, registeredB x = true) →
    ∃ out, gatherScopes services set = .ok out ∧
      (∀ a, a ∈ out ↔ a ∈ set ∨
        ∃ svc ∈ services, ∃ info, lookupInfo svc = some info ∧ a ∈ info.scopes) ∧
      (set.Nodup → out.Nodup) := by
  intro services
  induction services with
  | nil =>
    intro set _
    exact ⟨set, rfl, by simp, fun h => h⟩
  | cons svc rest ih =>
    intro set hreg
    have hsvc : registeredB svc = true := hreg svc (List.mem_cons_self _ _)
    rcases Option.isSome_iff_exists.mp hsvc with ⟨info, hinfo⟩
    have hscopes : Scopes svc = .ok info.scopes := by
      unfold Scopes
      rw [hinfo]
    rcases ih (info.scopes.foldl (fun st s => setInsert s st) set)
        (fun x hx => hreg x (List.mem_cons_of_mem _ hx)) with ⟨out, hout, hmem, hnd⟩
    refine ⟨out, ?_, ?_, ?_⟩
    · rw [gatherScopes_cons, hscopes]
      exact hout
    · intro a
      rw [hmem a, mem_foldl_setInsert]
      constructor
      · rintro ((ha | ha) | ⟨s', hs', i', hi', ha⟩)
        · exact .inl ha
        · exact .inr ⟨svc, List.mem_cons_self _ _, info, hinfo, ha⟩
        · exact .inr ⟨s', List.mem_cons_of_mem _ hs', i', hi', ha⟩
      · rintro (ha | ⟨s', hs', i', hi', ha⟩)
        · exact .inl (.inl ha)
        · rcases List.mem_cons.mp hs' with rfl | hs'
          · have : info = i' := by
              rw [hinfo] at hi'
              exact Option.some.inj hi'
            subst this
            exact .inl (.inr ha)
          · exact .inr ⟨s', hs', i', hi', ha⟩
    · intro hnodup
      exact hnd (nodup_foldl_setInsert hnodup)

theorem gatherScopes_err : ∀ (services : List Service) (b : Service) (set : List GoStr),
    services.find? (fun x => !registeredB x) = some b →
    gatherScopes services set = .error errUnknownService := by
  intro services
  induction services with
  | nil =>
    intro b set h
    simp [List.find?] at h
  | cons x rest ih =>
    intro b set h
    by_cases hx : registeredB x = true
    · have hfalse : (!registeredB x) = false := by rw [hx]; rfl
      rw [List.find?_cons_of_neg _ (by simp [hfalse])] at h
      rcases Option.isSome_iff_exists.mp hx with ⟨info, hinfo⟩
      have hscopes : Scopes x = .ok info.scopes := by
        unfold Scopes
        rw [hinfo]
      rw [gatherScopes_cons, hscopes]
      exact ih b (info.scopes.foldl (fun st s => setInsert s st) set) h
    · have hx' : registeredB x = false := by
        rcases hr : registeredB x with _ | _
        · rfl
        · exact absurd hr hx
      have hscopes : Scopes x = .error errUnknownService := scopes_unregistered hx'
      rw [gatherScopes_cons, hscopes]

theorem scopesForServices_ok {services : List Service}
    (h : ∀ x ∈ services, registeredB x = true) :
    ∃ out, ScopesForServices services = .ok out ∧
      (∀ a, a ∈ out ↔
        ∃ svc ∈ services, ∃ info, lookupInfo svc = some info ∧ a ∈ info.scopes) ∧
      out.Pairwise StrLt := by
  rcases gatherScopes_ok services [] h with ⟨set, hset, hmem, hnd⟩
  refine ⟨sortStrings set, ?_, ?_, ?_⟩
  · unfold ScopesForServices
    rw [hset]
  · intro a
    rw [mem_sortStrings, hmem a]
    simp
  · exact pairwise_sortStrings (hnd List.nodup_nil)

theorem mergeScopes_spec (scopes extras : List GoStr) :
    (∀ a, a ∈ mergeScopes scopes extras ↔
      (a ∈ scopes ∧ a ≠ []) ∨ (a ∈ extras ∧ a ≠ [])) ∧
    (mergeScopes scopes extras).Pairwise StrLt := by
  unfold mergeScopes
  constructor
  · intro a
    rw [mem_sortStrings, mem_foldl_mergeInsert, mem_foldl_mergeInsert]
    simp
  · exact pairwise_sortStrings (nodup_foldl_mergeInsert (nodup_foldl_mergeInsert List.nodup_nil))

/-! ### Canonicalization (trim + lowercase) lemmas -/

theorem lowerB_idem (b : Nat) : lowerB (lowerB b) = lowerB b := by
  simp only [lowerB]
  split
  · rw [if_neg (by omega)]
  · rfl

theorem isSpaceB_lowerB (b : Nat) : isSpaceB (lowerB b) = isSpaceB b := by
  rw [Bool.eq_iff_iff]
  simp only [isSpaceB, lowerB, Bool.or_eq_true, beq_iff_eq]
  split <;> omega

theorem goToLower_idem (s : GoStr) : goToLower (goToLower s) = goToLower s := by
  unfold goToLower
  rw [List.map_map]
  congr 1
  funext b
  exact lowerB_idem b

theorem isSpaceB_comp_lowerB : isSpaceB ∘ lowerB = isSpaceB :=
  funext isSpaceB_lowerB

theorem trimSpace_goToLower (l : GoStr) :
    trimSpace (goToLower l) = goToLower (trimSpace l) := by
  unfold trimSpace goToLower
  rw [List.dropWhile_map, isSpaceB_comp_lowerB, ← List.map_reverse,
    List.dropWhile_map, isSpaceB_comp_lowerB, ← List.map_reverse]

theorem dropWhile_eq_cons_head_false {p : Nat → Bool} :
    ∀ {l : GoStr} {a : Nat} {t : GoStr}, l.dropWhile p = a :: t → p a = false := by
  intro l
  induction l with
  | nil => intro a t h; cases h
  | cons x xs ih =>
    intro a t h
    by_cases hx : p x = true
    · rw [List.dropWhile_cons_of_pos hx] at h
      exact ih h
    · rw [List.dropWhile_cons_of_neg hx] at h
      cases h
      simpa using hx

theorem dropWhile_trimRight {p : Nat → Bool} (m : GoStr)
    (hm : ∀ a t, m = a :: t → p a = false) :
    ((m.reverse.dropWhile p).reverse).dropWhile p = (m.reverse.dropWhile p).reverse := by
  rcases hX : (m.reverse.dropWhile p).reverse with _ | ⟨a, t⟩
  · rfl
  · rcases (List.dropWhile_suffix p : m.reverse.dropWhile p <:+ m.reverse) with ⟨u, hu⟩
    have hm' : m = (m.reverse.dropWhile p).reverse ++ u.reverse := by
      have := congrArg List.reverse hu
      rw [List.reverse_append, List.reverse_reverse] at this
      exact this.symm
    rw [hX] at hm'
    have hpa : p a = false := hm a (t ++ u.reverse) (by rw [hm']; simp)
    rw [List.dropWhile_cons_of_neg (by simp [hpa])]

theorem trimSpace_idem (l : GoStr) : trimSpace (trimSpace l) = trimSpace l := by
  unfold trimSpace
  rw [dropWhile_trimRight (l.dropWhile isSpaceB)
      (fun a t h => dropWhile_eq_cons_head_false h),
    List.reverse_reverse, List.dropWhile_idempotent]

theorem canon_idem (r : GoStr) :
    goToLower (trimSpace (goToLower (trimSpace r))) = goToLower (trimSpace r) := by
  rw [trimSpace_goToLower, trimSpace_idem, goToLower_idem]

/-- The error value `ParseService` returns on any non-registry input. -/
theorem parseService_error_shape {r : GoStr}
    (h : registeredB (goToLower (trimSpace r)) = false) :
    ParseService r = Except.error (errUnknownService ++ strBytes " " ++ goQuote r ++
      strBytes " (expected " ++ serviceNames AllServices (strBytes "|") ++ strBytes ")") := by
  unfold ParseService
  simp [h]

/-! ### Registry facts -/

/-- No scope in the fixed table is empty or one of the three identity
scopes. -/
theorem registry_scopes_clean : ∀ p ∈ serviceInfoByService, ∀ a ∈ p.2.scopes,
    a ≠ [] ∧ a ≠ scopeOpenID ∧ a ≠ scopeEmail ∧ a ≠ scopeUserinfoEmail := by decide

theorem lookup_mem_order {s : Service} {info : serviceInfo}
    (h : lookupInfo s = some info) : s ∈ serviceOrder := by
  rcases lookupInfo_mem h with ⟨p, hp, hp1, _⟩
  have hall : ∀ q ∈ serviceInfoByService, q.1 ∈ serviceOrder := by decide
  exact hp1 ▸ hall p hp

/-! ### Claim theorems -/

/-- C1: for every list of registered service identifiers,
`ScopesForServices` returns the union of the services' scopes with each
distinct scope exactly once, in strictly ascending bytewise
lexicographic order, and the output depends only on the set of input
identifiers (so it is invariant under reordering and duplicates). -/
theorem scopesForServices_union_sorted_deterministic (s t : List Service)
    (hs : ∀ x ∈ s, registeredB x = true) (ht : ∀ x ∈ t, registeredB x = true)
    (hst : ∀ x, x ∈ s ↔ x ∈ t) :
    ∃ out, ScopesForServices s = Except.ok out ∧ ScopesForServices t = Except.ok out ∧
      out.Pairwise StrLt ∧
      (∀ a, a ∈ out ↔ ∃ svc ∈ s, ∃ info, lookupInfo svc = some info ∧ a ∈ info.scopes) := by
  rcases scopesForServices_ok hs with ⟨o1, h1, m1, p1⟩
  rcases scopesForServices_ok ht with ⟨o2, h2, m2, p2⟩
  have heq : o1 = o2 := by
    refine sorted_strLt_ext p1 p2 (fun a => ?_)
    rw [m1 a, m2 a]
    constructor
    · rintro ⟨svc, hsvc, rest⟩
      exact ⟨svc, (hst svc).mp hsvc, rest⟩
    · rintro ⟨svc, hsvc, rest⟩
      exact ⟨svc, (hst svc).mpr hsvc, rest⟩
  subst heq
  exact ⟨o1, h1, h2, p1, m1⟩

theorem scopesForServices_union_sorted_deterministic_witness :
    ∃ out, ScopesForServices [ServiceDocs, ServiceGmail, ServiceDocs] = Except.ok out ∧
      ScopesForServices [ServiceGmail, ServiceDocs] = Except.ok out ∧
      out.Pairwise StrLt ∧
      (∀ a, a ∈ out ↔ ∃ svc ∈ [ServiceDocs, ServiceGmail, ServiceDocs],
        ∃ info, lookupInfo svc = some info ∧ a ∈ info.scopes) :=
  scopesForServices_union_sorted_deterministic
    [ServiceDocs, ServiceGmail, ServiceDocs] [ServiceGmail, ServiceDocs]
    (by decide) (by decide)
    (by intro x; simp only [List.mem_cons, List.not_mem_nil, or_false]; tauto)

/-- C3: for every list of registered identifiers, `ScopesForManage`
succeeds; its result adds to `ScopesForServices` exactly the three
fixed identity scopes, none of which occurs in any registry record, and
it is strictly sorted, duplicate-free, and free of empty strings. -/
theorem scopesForManage_superset (s : List Service)
    (hs : ∀ x ∈ s, registeredB x = true) :
    ∃ base out, ScopesForServices s = Except.ok base ∧ ScopesForManage s = Except.ok out ∧
      (∀ a ∈ base, a ∈ out) ∧
      (∀ a, a ∈ out ↔ a ∈ base ∨ a ∈ [scopeOpenID, scopeEmail, scopeUserinfoEmail]) ∧
      (∀ a ∈ [scopeOpenID, scopeEmail, scopeUserinfoEmail], a ∉ base) ∧
      out.Pairwise StrLt ∧ [] ∉ out := by
  rcases scopesForServices_ok hs with ⟨base, hbase, hmem, hsort⟩
  have hclean : ∀ a ∈ base, a ≠ [] ∧ a ≠ scopeOpenID ∧ a ≠ scopeEmail ∧ a ≠ scopeUserinfoEmail := by
    intro a ha
    rcases (hmem a).mp ha with ⟨svc, _, info, hinfo, hain⟩
    rcases lookupInfo_mem hinfo with ⟨p, hp, _, hp2⟩
    exact registry_scopes_clean p hp a (by rw [hp2]; exact hain)
  have hout : ScopesForManage s =
      Except.ok (mergeScopes base [scopeOpenID, scopeEmail, scopeUserinfoEmail]) := by
    unfold ScopesForManage
    rw [hbase]
  rcases mergeScopes_spec base [scopeOpenID, scopeEmail, scopeUserinfoEmail] with ⟨mmem, msort⟩
  refine ⟨base, _, hbase, hout, ?_, ?_, ?_, msort, ?_⟩
  · intro a ha
    exact (mmem a).mpr (.inl ⟨ha, (hclean a ha).1⟩)
  · intro a
    rw [mmem a]
    constructor
    · rintro (⟨ha, _⟩ | ⟨ha, _⟩)
      · exact .inl ha
      · exact .inr ha
    · rintro (ha | ha)
      · exact .inl ⟨ha, (hclean a ha).1⟩
      · refine .inr ⟨ha, ?_⟩
        simp only [List.mem_cons, List.not_mem_nil, or_false] at ha
        rcases ha with rfl | rfl | rfl <;> decide
  · intro a ha hain
    have hc := hclean a hain
    simp only [List.mem_cons, List.not_mem_nil, or_false] at ha
    rcases ha with rfl | rfl | rfl
    · exact hc.2.1 rfl
    · exact hc.2.2.1 rfl
    · exact hc.2.2.2 rfl
  · intro hbad
    rcases (mmem []).mp hbad with ⟨_, h⟩ | ⟨_, h⟩ <;> exact h rfl

theorem scopesForManage_superset_witness :
    ∃ base out, ScopesForServices [ServicePeople] = Except.ok base ∧
      ScopesForManage [ServicePeople] = Except.ok out ∧
      (∀ a ∈ base, a ∈ out) ∧
      (∀ a, a ∈ out ↔ a ∈ base ∨ a ∈ [scopeOpenID, scopeEmail, scopeUserinfoEmail]) ∧
      (∀ a ∈ [scopeOpenID, scopeEmail, scopeUserinfoEmail], a ∉ base) ∧
      out.Pairwise StrLt ∧ [] ∉ out :=
  scopesForManage_superset [ServicePeople] (by decide)

/-- C4: when the input list contains an unregistered identifier, the
first such identifier (in input order) makes `ScopesForServices` and
`ScopesForManage` return the `UnknownService` error produced by
`Scopes` on it, with no scope list at all. -/
theorem scopesForServices_first_error (s : List Service) (b : Service)
    (h : s.find? (fun x => !registeredB x) = some b) :
    ScopesForServices s = Except.error errUnknownService ∧
    ScopesForManage s = Except.error errUnknownService ∧
    Scopes b = Except.error errUnknownService := by
  have herr := gatherScopes_err s b [] h
  have hb : registeredB b = false := by
    have := List.find?_some h
    simpa using this
  have hS : ScopesForServices s = Except.error errUnknownService := by
    unfold ScopesForServices
    rw [herr]
  refine ⟨hS, ?_, scopes_unregistered hb⟩
  unfold ScopesForManage
  rw [hS]

theorem scopesForServices_first_error_witness :
    ScopesForServices [ServiceGmail, strBytes "nope", strBytes "alsobad"] =
      Except.error errUnknownService ∧
    ScopesForManage [ServiceGmail, strBytes "nope", strBytes "alsobad"] =
      Except.error errUnknownService ∧
    Scopes (strBytes "nope") = Except.error errUnknownService :=
  scopesForServices_first_error [ServiceGmail, strBytes "nope", strBytes "alsobad"]
    (strBytes "nope") (by decide)

/-- C2 counterexample: the trimmed, lowercased form of `" NOPE "` is
`"nope"`, yet `ParseService` returns different values on the two
inputs, because the failure message quotes the original string — so
`ParseService(r)` does not literally equal `ParseService` of the
canonical form of `r`. -/
theorem parseService_not_literally_insensitive :
    goToLower (trimSpace (strBytes " NOPE ")) = strBytes "nope" ∧
    ParseService (strBytes " NOPE ") ≠ ParseService (strBytes "nope") := by decide

/-- C2 (amended): every identifier in `AllServices` parses back to
itself, and the parse outcome (the identifier on success, failure
otherwise) is insensitive to case and surrounding whitespace: it
coincides with the outcome on the trimmed, lowercased form. Only the
error message differs, by quoting the original input. -/
theorem parseService_roundtrip_caseInsensitive :
    (∀ s ∈ AllServices, ParseService s = Except.ok s) ∧
    (∀ r : GoStr, (ParseService r).toOption =
      (ParseService (goToLower (trimSpace r))).toOption) := by
  constructor
  · decide
  · intro r
    unfold ParseService
    simp only [canon_idem r]
    rcases h : registeredB (goToLower (trimSpace r)) with _ | _ <;> simp [h, Except.toOption]

theorem parseService_roundtrip_caseInsensitive_witness :
    ParseService ServiceGmail = Except.ok ServiceGmail ∧
    (ParseService (strBytes " GMAIL ")).toOption =
      (ParseService (goToLower (trimSpace (strBytes " GMAIL ")))).toOption :=
  ⟨parseService_roundtrip_caseInsensitive.1 ServiceGmail (by decide),
   parseService_roundtrip_caseInsensitive.2 (strBytes " GMAIL ")⟩

/-- A byte needing no `%q` escaping renders as itself. -/
theorem quoteByte_plain {b : Nat} (h1 : 32 ≤ b) (h2 : b ≤ 126)
    (h3 : b ≠ 34) (h4 : b ≠ 92) : quoteByte b = [b] := by
  unfold quoteByte
  rw [if_neg h3, if_neg h4, if_neg (by omega), if_neg (by omega), if_neg (by omega),
    if_neg (by omega), if_neg (by omega), if_neg (by omega), if_neg (by omega),
    if_pos ⟨h1, h2⟩]

/-- A string of escape-free bytes renders verbatim inside its quotes. -/
theorem flatten_quoteByte_plain : ∀ {r : GoStr},
    (∀ b ∈ r, 32 ≤ b ∧ b ≤ 126 ∧ b ≠ 34 ∧ b ≠ 92) →
    (r.map quoteByte).flatten = r := by
  intro r
  induction r with
  | nil => intro _; rfl
  | cons b bs ih =>
    intro h
    rcases h b (List.mem_cons_self _ _) with ⟨h1, h2, h3, h4⟩
    rw [List.map_cons, List.flatten_cons, quoteByte_plain h1 h2 h3 h4,
      ih (fun x hx => h x (List.mem_cons_of_mem _ hx))]
    rfl

set_option maxRecDepth 4096 in
/-- C5 counterexample: at the raw input `"\n"` (whose trimmed,
lowercased form is the empty string, not a registry key),
`ParseService` fails with a message containing `%q`'s escaped
rendering of the input — backslash then `n` — but not the raw input
byte itself, so the message does not include the original input
string. -/
theorem parseService_escaped_input_not_in_message :
    goQuote [10] = strBytes "\"\\n\"" ∧
    ParseService [10] = Except.error (errUnknownService ++ strBytes " " ++ goQuote [10] ++
      strBytes " (expected " ++ serviceNames AllServices (strBytes "|") ++ strBytes ")") ∧
    ¬ List.IsInfix [10] (errUnknownService ++ strBytes " " ++ goQuote [10] ++
      strBytes " (expected " ++ serviceNames AllServices (strBytes "|") ++ strBytes ")") := by
  decide

/-- C5 (amended): on any input whose trimmed, lowercased form is not a
registry key, `ParseService` fails with a message containing the
`%q`-quoted rendering of the original (non-canonicalized) input —
which contains the original verbatim whenever no byte of it needs
escaping — and the full identifier list joined by `|` in presentation
order. -/
theorem parseService_unknown_error_quoted (r : GoStr)
    (h : registeredB (goToLower (trimSpace r)) = false) :
    ∃ m, ParseService r = Except.error m ∧
      List.IsInfix (goQuote r) m ∧
      List.IsInfix (serviceNames AllServices (strBytes "|")) m ∧
      ((∀ b ∈ r, 32 ≤ b ∧ b ≤ 126 ∧ b ≠ 34 ∧ b ≠ 92) → List.IsInfix r m) := by
  refine ⟨errUnknownService ++ strBytes " " ++ goQuote r ++
    strBytes " (expected " ++ serviceNames AllServices (strBytes "|") ++ strBytes ")",
    parseService_error_shape h, ?_, ?_, ?_⟩
  · exact ⟨errUnknownService ++ strBytes " ",
      strBytes " (expected " ++ serviceNames AllServices (strBytes "|") ++ strBytes ")",
      by simp [List.append_assoc]⟩
  · exact ⟨errUnknownService ++ strBytes " " ++ goQuote r ++ strBytes " (expected ",
      strBytes ")", by simp [List.append_assoc]⟩
  · intro hplain
    refine ⟨errUnknownService ++ strBytes " " ++ [34],
      [34] ++ strBytes " (expected " ++
        serviceNames AllServices (strBytes "|") ++ strBytes ")", ?_⟩
    unfold goQuote
    rw [flatten_quoteByte_plain hplain]
    simp [List.append_assoc]

theorem parseService_unknown_error_quoted_witness :
    registeredB (goToLower (trimSpace (strBytes "nope"))) = false ∧
    ∃ m, ParseService (strBytes "nope") = Except.error m ∧
      List.IsInfix (goQuote (strBytes "nope")) m ∧
      List.IsInfix (serviceNames AllServices (strBytes "|")) m ∧
      ((∀ b ∈ strBytes "nope", 32 ≤ b ∧ b ≤ 126 ∧ b ≠ 34 ∧ b ≠ 92) →
        List.IsInfix (strBytes "nope") m) :=
  ⟨by decide, parseService_unknown_error_quoted (strBytes "nope") (by decide)⟩

/-- C6 counterexample: `Scopes` on the unregistered identifier `"nope"`
returns the bare `unknown service` sentinel, whose message does not
contain the offending identifier — so not every `UnknownService` error
of this core carries the input that failed to match. -/
theorem scopes_error_without_identifier :
    Scopes (strBytes "nope") = Except.error errUnknownService ∧
    ¬ List.IsInfix (strBytes "nope") errUnknownService := by decide

/-- C6 (amended): an `UnknownService` failure of `Scopes` is the fixed
`unknown service` sentinel, which does not carry the offending
identifier; only the parse path (`ParseService`) embeds the offending
input — in `%q`-quoted form — in its error message. -/
theorem unknownService_error_context (s : Service) (r : GoStr)
    (hs : registeredB s = false)
    (hr : registeredB (goToLower (trimSpace r)) = false) :
    Scopes s = Except.error errUnknownService ∧
    ∃ m, ParseService r = Except.error m ∧ List.IsInfix (goQuote r) m := by
  refine ⟨scopes_unregistered hs,
    errUnknownService ++ strBytes " " ++ goQuote r ++
      strBytes " (expected " ++ serviceNames AllServices (strBytes "|") ++ strBytes ")",
    parseService_error_shape hr, ?_⟩
  exact ⟨errUnknownService ++ strBytes " ",
    strBytes " (expected " ++ serviceNames AllServices (strBytes "|") ++ strBytes ")",
    by simp [List.append_assoc]⟩

theorem unknownService_error_context_witness :
    Scopes (strBytes "nope") = Except.error errUnknownService ∧
    ∃ m, ParseService (strBytes "bogus") = Except.error m ∧
      List.IsInfix (goQuote (strBytes "bogus")) m :=
  unknownService_error_context (strBytes "nope") (strBytes "bogus") (by decide) (by decide)

/-- C7: `UserServices` is a strict subsequence of `AllServices` (same
relative order), equals the presentation order filtered to records with
`user == true`, contains every identifier whose record has
`user == true`, and excludes the organization-only identifiers
(`keep`, `groups`). -/
theorem userServices_filter_correct :
    List.Sublist UserServices AllServices ∧
    UserServices ≠ AllServices ∧
    UserServices = AllServices.filter (fun s =>
      match lookupInfo s with
      | some info => info.user
      | none => false) ∧
    (∀ s info, lookupInfo s = some info → info.user = true → s ∈ UserServices) ∧
    ServiceKeep ∉ UserServices ∧ ServiceGroups ∉ UserServices := by
  refine ⟨List.filter_sublist _, by decide, rfl, ?_, by decide, by decide⟩
  intro s info h hu
  have hmem : s ∈ serviceOrder := lookup_mem_order h
  unfold UserServices filteredServices
  rw [List.mem_filter]
  refine ⟨hmem, ?_⟩
  rw [h]
  exact hu

theorem userServices_filter_correct_witness :
    ServicePeople ∈ UserServices :=
  userServices_filter_correct.2.2.2.1 ServicePeople
    { scopes := [strBytes "profile"], user := true,
      apis := [strBytes "People API"], note := strBytes "OIDC profile scope" }
    (by decide) rfl

/-- The builder loop of `ServicesMarkdown` appends one rendered row per
entry, left to right. -/
theorem foldl_append_rows (f : ServiceInfo → GoStr) :
    ∀ (l : List ServiceInfo) (init : GoStr),
    l.foldl (fun b info => b ++ f info) init = init ++ (l.map f).flatten := by
  intro l
  induction l with
  | nil => intro init; simp
  | cons x xs ih =>
    intro init
    rw [List.foldl_cons, ih, List.map_cons, List.flatten_cons, List.append_assoc]

/-- C8: `ServicesMarkdown` of an empty list is the empty string with no
header; on a non-empty list it is the two header lines followed by
exactly one `markdownRow` per input entry in input order (each row with
the yes/no flag, comma-joined APIs and backtick-quoted scopes joined by
`<br>`). -/
theorem servicesMarkdown_table :
    ServicesMarkdown [] = [] ∧
    ∀ infos, infos ≠ [] →
      ServicesMarkdown infos =
        strBytes "| Service | User | APIs | Scopes | Notes |\n" ++
        strBytes "| --- | --- | --- | --- | --- |\n" ++
        (infos.map markdownRow).flatten := by
  constructor
  · rfl
  · intro infos h
    unfold ServicesMarkdown
    rw [if_neg h, foldl_append_rows markdownRow, List.append_assoc]

theorem servicesMarkdown_table_witness :
    ServicesMarkdown ServicesInfo =
      strBytes "| Service | User | APIs | Scopes | Notes |\n" ++
      strBytes "| --- | --- | --- | --- | --- |\n" ++
      (ServicesInfo.map markdownRow).flatten :=
  servicesMarkdown_table.2 ServicesInfo (by decide)

/-- C9: the presentation order has no duplicates, every identifier in
it has a registry record, every registry key appears in it, and the
order is a permutation of the key list — the order and the key set are
equal as sets, the order enumerating each key exactly once. -/
theorem registry_presentation_invariant :
    serviceOrder.Nodup ∧
    (∀ s ∈ serviceOrder, registeredB s = true) ∧
    (∀ p ∈ serviceInfoByService, p.1 ∈ serviceOrder) ∧
    serviceOrder.Perm (serviceInfoByService.map Prod.fst) := by decide

theorem registry_presentation_invariant_witness :
    registeredB ServiceGmail = true :=
  registry_presentation_invariant.2.1 ServiceGmail (by decide)

/-- C10: on the empty input, `ScopesForServices` succeeds with the
empty sequence and `ScopesForManage` succeeds with exactly the three
identity scopes in ascending lexicographic order. -/
theorem empty_input_scopes :
    ScopesForServices [] = Except.ok [] ∧
    ScopesForManage [] = Except.ok [scopeEmail, scopeUserinfoEmail, scopeOpenID] := by decide
